import Mathlib

/-!
# Verification of the A/B-testing statistical engine

Shallow embedding of `src/utils/abTestingUtils.ts` (the statistical core:
`validateInputs`, `calculateSampleSize`, `analyzeResults`,
`sequentialAnalysis`).

JavaScript numbers are modelled by `JsVal`: an exact rational together with
the special float values `NaN`, `+Infinity` and `-Infinity` (signed zero and
rounding are not modelled; every arithmetic step of the source on in-range
data is exact in this model).  The `jstat` normal-distribution primitives
`jstat.normal.cdf(·,0,1)`, `jstat.normal.inv(·,0,1)` and `Math.sqrt` are
third-party library code, so they are abstracted as a parameter structure
`NormalPrims`; theorems assume only properties that the real functions have
(for example `Math.sqrt 0 = 0`, or that the inverse CDF of a probability
above one half is nonnegative).
-/

namespace ABTest

/-- Model of a JavaScript number: an exact rational, `NaN`, or a signed
infinity. -/
inductive JsVal where
  | num (q : ℚ)
  | nan
  | posInf
  | negInf
deriving DecidableEq

namespace JsVal

/-- JavaScript addition. -/
def jadd : JsVal → JsVal → JsVal
  | nan, _ => nan
  | _, nan => nan
  | num a, num b => num (a + b)
  | num _, posInf => posInf
  | num _, negInf => negInf
  | posInf, num _ => posInf
  | negInf, num _ => negInf
  | posInf, posInf => posInf
  | posInf, negInf => nan
  | negInf, posInf => nan
  | negInf, negInf => negInf

/-- JavaScript subtraction. -/
def jsub : JsVal → JsVal → JsVal
  | nan, _ => nan
  | _, nan => nan
  | num a, num b => num (a - b)
  | num _, posInf => negInf
  | num _, negInf => posInf
  | posInf, num _ => posInf
  | negInf, num _ => negInf
  | posInf, posInf => nan
  | posInf, negInf => posInf
  | negInf, posInf => negInf
  | negInf, negInf => nan

/-- JavaScript multiplication. -/
def jmul : JsVal → JsVal → JsVal
  | nan, _ => nan
  | _, nan => nan
  | num a, num b => num (a * b)
  | num a, posInf => if a = 0 then nan else if 0 < a then posInf else negInf
  | num a, negInf => if a = 0 then nan else if 0 < a then negInf else posInf
  | posInf, num b => if b = 0 then nan else if 0 < b then posInf else negInf
  | negInf, num b => if b = 0 then nan else if 0 < b then negInf else posInf
  | posInf, posInf => posInf
  | posInf, negInf => negInf
  | negInf, posInf => negInf
  | negInf, negInf => posInf

/-- JavaScript division (a zero divisor is treated as `+0`; the source never
produces a negative zero on the modelled paths). -/
def jdiv : JsVal → JsVal → JsVal
  | nan, _ => nan
  | _, nan => nan
  | num a, num b =>
      if b = 0 then (if a = 0 then nan else if 0 < a then posInf else negInf)
      else num (a / b)
  | num _, posInf => num 0
  | num _, negInf => num 0
  | posInf, num b => if 0 ≤ b then posInf else negInf
  | negInf, num b => if 0 ≤ b then negInf else posInf
  | posInf, posInf => nan
  | posInf, negInf => nan
  | negInf, posInf => nan
  | negInf, negInf => nan

/-- JavaScript unary negation. -/
def jneg : JsVal → JsVal
  | num a => num (-a)
  | nan => nan
  | posInf => negInf
  | negInf => posInf

/-- `Math.abs`. -/
def jabs : JsVal → JsVal
  | num a => num |a|
  | nan => nan
  | posInf => posInf
  | negInf => posInf

/-- `Math.ceil` (identity on `NaN` and the infinities, as in JavaScript). -/
def jceil : JsVal → JsVal
  | num a => num ⌈a⌉
  | nan => nan
  | posInf => posInf
  | negInf => negInf

/-- `Math.pow(x, 2)`, which agrees with `x * x` on every JavaScript number. -/
def jpow2 (v : JsVal) : JsVal := jmul v v

/-- The JavaScript `<` comparison (`false` whenever an operand is `NaN`). -/
def jlt : JsVal → JsVal → Bool
  | nan, _ => false
  | _, nan => false
  | num a, num b => a < b
  | num _, posInf => true
  | num _, negInf => false
  | posInf, _ => false
  | negInf, negInf => false
  | negInf, _ => true

end JsVal

open JsVal

/-- Abstract interface for the external numeric primitives used by the
engine: `Math.sqrt`, `jstat.normal.cdf(·, 0, 1)` and
`jstat.normal.inv(·, 0, 1)`. -/
structure NormalPrims where
  sqrtF : JsVal → JsVal
  cdf : JsVal → JsVal
  inv : JsVal → JsVal

/-- `l.reduce((sum, val) => sum + val, 0)` on a list of ordinary numbers. -/
def listSum (l : List ℚ) : ℚ := l.foldl (fun sum val => sum + val) 0

/-- `validateInputs` from `src/utils/abTestingUtils.ts` (the strict,
exclusive-bounds variant). -/
def validateInputs (baselineRate mde confidence power : ℚ) : Option String :=
  if baselineRate ≤ 0 ∨ 1 ≤ baselineRate then
    some "Baseline rate must be between 0 and 1"
  else if mde ≤ 0 ∨ 1 ≤ mde then
    some "Minimum detectable effect must be between 0 and 1"
  else if confidence ≤ 8/10 ∨ 1 ≤ confidence then
    some "Confidence level must be between 0.8 and 1"
  else if power ≤ 8/10 ∨ 1 ≤ power then
    some "Statistical power must be between 0.8 and 1"
  else
    none

/-- `calculateSampleSize` from `src/utils/abTestingUtils.ts`: validates, then
computes `ceil(2·p̄·(1−p̄)·(zα+zβ)² / (p2−p1)²)` with the `jstat` inverse
CDF abstracted by `P.inv`.  A thrown `Error` is modelled as `Except.error`. -/
def calculateSampleSize (P : NormalPrims) (baselineRate mde confidence power : ℚ) :
    Except String JsVal :=
  match validateInputs baselineRate mde confidence power with
  | some validationError => .error validationError
  | none =>
    let alpha := 1 - confidence
    let zAlpha := P.inv (.num (1 - alpha / 2))
    let zBeta := P.inv (.num power)
    let p1 := baselineRate
    let p2 := p1 * (1 + mde)
    let pPooled := (p1 + p2) / 2
    let sampleSize :=
      jdiv (jmul (jmul (jmul (.num 2) (.num pPooled)) (.num (1 - pPooled)))
              (jpow2 (jadd zAlpha zBeta)))
           (jpow2 (.num (p2 - p1)))
    .ok (jceil sampleSize)

/-- The record returned by `analyzeResults` (field names follow the source;
`ciControl`/`ciVariant` are the two entries of `confidenceIntervals`, each a
`[low, high]` pair). -/
structure OutcomeRecord where
  controlRate : JsVal
  variantRate : JsVal
  relativeImprovement : JsVal
  pValue : JsVal
  significant : Bool
  ciControl : JsVal × JsVal
  ciVariant : JsVal × JsVal
  conclusion : String
deriving DecidableEq

/-- `analyzeResults` from `src/utils/abTestingUtils.ts`, with `Math.sqrt`
and the `jstat` normal CDF / inverse CDF abstracted by `P`. -/
def analyzeResults (P : NormalPrims) (controlData variantData : List ℚ)
    (confidence : ℚ) : OutcomeRecord :=
  let controlConv := jdiv (.num (listSum controlData)) (.num controlData.length)
  let variantConv := jdiv (.num (listSum variantData)) (.num variantData.length)
  let n1 : ℚ := controlData.length
  let n2 : ℚ := variantData.length
  let pPooled := jdiv (.num (listSum controlData + listSum variantData)) (.num (n1 + n2))
  let se := P.sqrtF (jmul (jmul pPooled (jsub (.num 1) pPooled))
                      (jadd (jdiv (.num 1) (.num n1)) (jdiv (.num 1) (.num n2))))
  let zScore := jdiv (jsub variantConv controlConv) se
  let pValue := jmul (.num 2) (jsub (.num 1) (P.cdf (jabs zScore)))
  let zAlpha := P.inv (.num (1 - (1 - confidence) / 2))
  let ciControl :=
    (jsub controlConv (jmul zAlpha (P.sqrtF (jdiv (jmul controlConv (jsub (.num 1) controlConv)) (.num n1)))),
     jadd controlConv (jmul zAlpha (P.sqrtF (jdiv (jmul controlConv (jsub (.num 1) controlConv)) (.num n1)))))
  let ciVariant :=
    (jsub variantConv (jmul zAlpha (P.sqrtF (jdiv (jmul variantConv (jsub (.num 1) variantConv)) (.num n2)))),
     jadd variantConv (jmul zAlpha (P.sqrtF (jdiv (jmul variantConv (jsub (.num 1) variantConv)) (.num n2)))))
  let significant := jlt pValue (.num (1 - confidence))
  let conclusion :=
    if significant then
      if jlt controlConv variantConv then
        "The variant outperformed the control group significantly."
      else
        "The control group outperformed the variant significantly."
    else
      "The test results are inconclusive."
  { controlRate := controlConv
    variantRate := variantConv
    relativeImprovement := jdiv (jsub variantConv controlConv) controlConv
    pValue := pValue
    significant := significant
    ciControl := ciControl
    ciVariant := ciVariant
    conclusion := conclusion }

/-- One entry pushed by the `sequentialAnalysis` loop. -/
structure Checkpoint where
  sampleSize : ℤ
  pValue : JsVal
  relativeImprovement : JsVal
deriving DecidableEq

/-- `l.slice(0, endIdx)`: JavaScript `slice` clamps a too-large end index to
the length and counts a negative end index from the end of the array. -/
def jsSlice (l : List ℚ) (endIdx : ℤ) : List ℚ :=
  if endIdx < 0 then l.take ((l.length : ℤ) + endIdx).toNat
  else l.take endIdx.toNat

/-- The `for (let size = minSampleSize; size <= currentSize; size += minSampleSize)`
loop of `sequentialAnalysis`, run with an explicit fuel bound.  `none` means
the fuel ran out with the loop condition still true — for every fuel at once
this models non-termination of the source loop. -/
def seqLoop (P : NormalPrims) (controlData variantData : List ℚ)
    (minSampleSize : ℤ) (confidence : ℚ) (currentSize : ℤ) :
    ℕ → ℤ → Option (List Checkpoint)
  | 0, size => if size ≤ currentSize then none else some []
  | fuel + 1, size =>
    if size ≤ currentSize then
      let controlSample := jsSlice controlData size
      let variantSample := jsSlice variantData size
      let result := analyzeResults P controlSample variantSample confidence
      match seqLoop P controlData variantData minSampleSize confidence currentSize
              fuel (size + minSampleSize) with
      | none => none
      | some rest =>
        some ({ sampleSize := size
                pValue := result.pValue
                relativeImprovement := result.relativeImprovement } :: rest)
    else some []

/-- `sequentialAnalysis` from `src/utils/abTestingUtils.ts`.  When
`minSampleSize ≥ 1` the loop runs at most `currentSize` times, so the fuel
`currentSize + 1` never runs out and the result is `some` of the pushed
checkpoints; when `minSampleSize ≤ 0` the source loop never terminates, which
surfaces here as `none` (see `seqLoop`). -/
def sequentialAnalysis (P : NormalPrims) (controlData variantData : List ℚ)
    (minSampleSize : ℤ) (confidence : ℚ) : Option (List Checkpoint) :=
  let currentSize : ℤ := (min controlData.length variantData.length : ℕ)
  seqLoop P controlData variantData minSampleSize confidence currentSize
    (currentSize.toNat + 1) minSampleSize

/-- Concrete instantiation of the abstract numeric primitives, used to
evaluate the engine on closed inputs (each primitive is the identity, which
has the properties the theorems assume at the evaluated points). -/
def idPrims : NormalPrims where
  sqrtF := fun v => v
  cdf := fun v => v
  inv := fun v => v

/-- Sample mean of an observation sequence, `sum / length`. -/
def obsRate (l : List ℚ) : ℚ := listSum l / (l.length : ℚ)

/-- Pooled success proportion of the two arms,
`(sum control + sum variant) / (n1 + n2)`. -/
def pooledRate (control variant : List ℚ) : ℚ :=
  (listSum control + listSum variant) / ((control.length : ℚ) + (variant.length : ℚ))

namespace JsVal

theorem jadd_num (a b : ℚ) : jadd (.num a) (.num b) = .num (a + b) := rfl

theorem jsub_num (a b : ℚ) : jsub (.num a) (.num b) = .num (a - b) := rfl

theorem jmul_num (a b : ℚ) : jmul (.num a) (.num b) = .num (a * b) := rfl

theorem jdiv_num (a b : ℚ) (h : b ≠ 0) : jdiv (.num a) (.num b) = .num (a / b) := by
  simp [jdiv, h]

theorem jabs_num (a : ℚ) : jabs (.num a) = .num |a| := rfl

theorem jceil_num (a : ℚ) : jceil (.num a) = .num ⌈a⌉ := rfl

theorem jlt_num (a b : ℚ) : jlt (.num a) (.num b) = decide (a < b) := rfl

theorem jadd_comm (a b : JsVal) : jadd a b = jadd b a := by
  cases a <;> cases b <;> simp [jadd, add_comm]

theorem jsub_eq_jneg_swap (a b : JsVal) : jsub a b = jneg (jsub b a) := by
  cases a <;> cases b <;> simp [jsub, jneg, neg_sub]

theorem jdiv_jneg_left (a b : JsVal) : jdiv (jneg a) b = jneg (jdiv a b) := by
  cases a <;> cases b
  all_goals try rfl
  case num.num x y =>
    simp only [jdiv, jneg]
    by_cases hy : y = 0
    · subst hy
      by_cases hx : x = 0
      · simp [hx]
      · have hnx : ¬(-x = 0) := by simpa using hx
        rcases lt_or_gt_of_ne hx with h | h
        · rw [if_pos rfl, if_pos rfl, if_neg hnx, if_neg hx,
            if_pos (by linarith : (0:ℚ) < -x), if_neg (by linarith : ¬(0:ℚ) < x)]
        · rw [if_pos rfl, if_pos rfl, if_neg hnx, if_neg hx,
            if_neg (by linarith : ¬(0:ℚ) < -x), if_pos h]
    · rw [if_neg hy, if_neg hy]
      simp [jneg, neg_div]
  case posInf.num y =>
    by_cases hy : 0 ≤ y <;> simp [jdiv, jneg, hy]
  case negInf.num y =>
    by_cases hy : 0 ≤ y <;> simp [jdiv, jneg, hy]

theorem jabs_jneg (a : JsVal) : jabs (jneg a) = jabs a := by
  cases a <;> simp [jabs, jneg]

end JsVal

/-- `validateInputs` succeeds exactly when all four parameters lie strictly
inside their documented open intervals. -/
theorem validateInputs_none_iff (b m c p : ℚ) :
    validateInputs b m c p = none ↔
      (0 < b ∧ b < 1 ∧ 0 < m ∧ m < 1 ∧ 8/10 < c ∧ c < 1 ∧ 8/10 < p ∧ p < 1) := by
  constructor
  · intro h
    unfold validateInputs at h
    split_ifs at h with h1 h2 h3 h4
    all_goals simp_all [not_or]
  · rintro ⟨hb1, hb2, hm1, hm2, hc1, hc2, hp1, hp2⟩
    unfold validateInputs
    rw [if_neg (by push_neg; exact ⟨hb1, hb2⟩), if_neg (by push_neg; exact ⟨hm1, hm2⟩),
      if_neg (by push_neg; exact ⟨hc1, hc2⟩), if_neg (by push_neg; exact ⟨hp1, hp2⟩)]

/-- C8 (counterexample): the claim asserts `validateInputs(0.1, 0.05, 0.95, 0.8)`
returns no failure, but the strict exclusive bounds reject `power = 0.8`
(the excluded lower bound), so the call returns the power failure message. -/
theorem validateInputs_power_boundary_fails :
    validateInputs (1/10) (5/100) (95/100) (8/10) =
      some "Statistical power must be between 0.8 and 1" := by
  norm_num [validateInputs]

/-- C8 (amended): `validateInputs` applies strict exclusive bounds in a fixed
order — baseline rate in (0,1), then mde in (0,1), then confidence in
(0.8,1), then power in (0.8,1) — returning the message of the first failing
check and no failure exactly when all pass; concretely,
`validateInputs(0.1, 0.05, 0.95, 0.85)` returns no failure and
`validateInputs(0.1, 0.05, 1.0, 0.8)` returns the confidence failure. -/
theorem validateInputs_first_failure_spec :
    (∀ b m c p : ℚ, validateInputs b m c p = none ↔
      (0 < b ∧ b < 1 ∧ 0 < m ∧ m < 1 ∧ 8/10 < c ∧ c < 1 ∧ 8/10 < p ∧ p < 1)) ∧
    (∀ b m c p : ℚ, (b ≤ 0 ∨ 1 ≤ b) →
      validateInputs b m c p = some "Baseline rate must be between 0 and 1") ∧
    (∀ b m c p : ℚ, 0 < b → b < 1 → (m ≤ 0 ∨ 1 ≤ m) →
      validateInputs b m c p = some "Minimum detectable effect must be between 0 and 1") ∧
    (∀ b m c p : ℚ, 0 < b → b < 1 → 0 < m → m < 1 → (c ≤ 8/10 ∨ 1 ≤ c) →
      validateInputs b m c p = some "Confidence level must be between 0.8 and 1") ∧
    (∀ b m c p : ℚ, 0 < b → b < 1 → 0 < m → m < 1 → 8/10 < c → c < 1 → (p ≤ 8/10 ∨ 1 ≤ p) →
      validateInputs b m c p = some "Statistical power must be between 0.8 and 1") ∧
    validateInputs (1/10) (5/100) (95/100) (85/100) = none ∧
    validateInputs (1/10) (5/100) 1 (8/10) =
      some "Confidence level must be between 0.8 and 1" := by
  refine ⟨validateInputs_none_iff, ?_, ?_, ?_, ?_, by norm_num [validateInputs],
    by norm_num [validateInputs]⟩
  · intro b m c p h
    unfold validateInputs
    rw [if_pos h]
  · intro b m c p hb1 hb2 h
    unfold validateInputs
    rw [if_neg (by push_neg; exact ⟨hb1, hb2⟩), if_pos h]
  · intro b m c p hb1 hb2 hm1 hm2 h
    unfold validateInputs
    rw [if_neg (by push_neg; exact ⟨hb1, hb2⟩), if_neg (by push_neg; exact ⟨hm1, hm2⟩),
      if_pos h]
  · intro b m c p hb1 hb2 hm1 hm2 hc1 hc2 h
    unfold validateInputs
    rw [if_neg (by push_neg; exact ⟨hb1, hb2⟩), if_neg (by push_neg; exact ⟨hm1, hm2⟩),
      if_neg (by push_neg; exact ⟨hc1, hc2⟩), if_pos h]

/-- C8 (witness): the amended theorem applied at concrete inputs. -/
theorem validateInputs_first_failure_spec_witness :
    validateInputs 2 (1/2) (9/10) (9/10) = some "Baseline rate must be between 0 and 1" :=
  validateInputs_first_failure_spec.2.1 2 (1/2) (9/10) (9/10) (Or.inr (by norm_num))

/-- When validation passes and the abstract inverse CDF returns ordinary
numbers at the two probed points, `calculateSampleSize` computes exactly the
closed-form ceiling expression on rationals. -/
theorem calculateSampleSize_eq_of_valid (P : NormalPrims) (b m c p za zb : ℚ)
    (hvalid : validateInputs b m c p = none)
    (hA : P.inv (.num (1 - (1 - c) / 2)) = .num za)
    (hB : P.inv (.num p) = .num zb)
    (hd : b * (1 + m) - b ≠ 0) :
    calculateSampleSize P b m c p =
      .ok (.num (⌈2 * ((b + b * (1 + m)) / 2) * (1 - (b + b * (1 + m)) / 2) *
        ((za + zb) * (za + zb)) /
        ((b * (1 + m) - b) * (b * (1 + m) - b))⌉ : ℚ)) := by
  unfold calculateSampleSize
  rw [hvalid]
  simp only [jpow2]
  rw [hA, hB]
  rw [jadd_num, jmul_num, jmul_num, jmul_num, jmul_num, jmul_num,
    jdiv_num _ _ (mul_ne_zero hd hd), jceil_num]

/-- C4: with `baselineRate = 0.9` and `mde = 0.9` every individual validation
bound passes even though `p2 = baselineRate·(1+mde) = 1.71 ≥ 1`, so
`calculateSampleSize` raises no domain error; it returns `Ok` of the ceiling
of a negative quantity (the pooled rate exceeds 1), a non-positive number —
contradicting the claim that a domain error is raised whenever
`baselineRate·(1+mde) ≥ 1`. -/
theorem calculateSampleSize_no_domain_error_p2_ge_one (P : NormalPrims) (za zb : ℚ)
    (hA : P.inv (.num (1 - (1 - 95/100) / 2)) = .num za)
    (hB : P.inv (.num (85/100)) = .num zb)
    (hz : za + zb ≠ 0) :
    calculateSampleSize P (9/10) (9/10) (95/100) (85/100) =
      .ok (.num (⌈2 * ((9/10 + 9/10 * (1 + 9/10)) / 2) * (1 - (9/10 + 9/10 * (1 + 9/10)) / 2) *
        ((za + zb) * (za + zb)) /
        ((9/10 * (1 + 9/10) - 9/10) * (9/10 * (1 + 9/10) - 9/10))⌉ : ℚ)) ∧
    (⌈2 * ((9/10 + 9/10 * (1 + 9/10) : ℚ) / 2) * (1 - (9/10 + 9/10 * (1 + 9/10)) / 2) *
        ((za + zb) * (za + zb)) /
        ((9/10 * (1 + 9/10) - 9/10) * (9/10 * (1 + 9/10) - 9/10))⌉ : ℤ) ≤ 0 := by
  constructor
  · exact calculateSampleSize_eq_of_valid P _ _ _ _ _ _ (by norm_num [validateInputs]) hA hB
      (by norm_num)
  · have hs : 0 < (za + zb) * (za + zb) := mul_self_pos.mpr hz
    have hnum : 2 * ((9/10 + 9/10 * (1 + 9/10) : ℚ) / 2) *
        (1 - (9/10 + 9/10 * (1 + 9/10)) / 2) * ((za + zb) * (za + zb)) ≤ 0 := by nlinarith
    have hden : (0:ℚ) ≤ (9/10 * (1 + 9/10) - 9/10) * (9/10 * (1 + 9/10) - 9/10) := by norm_num
    exact Int.ceil_le.mpr (by exact_mod_cast div_nonpos_of_nonpos_of_nonneg hnum hden)

/-- C4 (witness): the evaluation theorem applied with the identity
primitives. -/
theorem calculateSampleSize_no_domain_error_p2_ge_one_witness :
    calculateSampleSize idPrims (9/10) (9/10) (95/100) (85/100) =
      .ok (.num (⌈(2:ℚ) * ((9/10 + 9/10 * (1 + 9/10)) / 2) * (1 - (9/10 + 9/10 * (1 + 9/10)) / 2) *
        (((1 - (1 - 95/100) / 2) + 85/100) * ((1 - (1 - 95/100) / 2) + 85/100)) /
        ((9/10 * (1 + 9/10) - 9/10) * (9/10 * (1 + 9/10) - 9/10))⌉ : ℚ)) ∧
    (⌈2 * ((9/10 + 9/10 * (1 + 9/10) : ℚ) / 2) * (1 - (9/10 + 9/10 * (1 + 9/10)) / 2) *
        (((1 - (1 - 95/100) / 2) + 85/100) * ((1 - (1 - 95/100) / 2) + 85/100)) /
        ((9/10 * (1 + 9/10) - 9/10) * (9/10 * (1 + 9/10) - 9/10))⌉ : ℤ) ≤ 0 :=
  calculateSampleSize_no_domain_error_p2_ge_one idPrims (1 - (1 - 95/100) / 2) (85/100)
    rfl rfl (by norm_num)

/-- C1: for parameters strictly inside the documented bounds with
`baselineRate·(1+mde) < 1`, `calculateSampleSize` returns `Ok` of exactly
`ceil(2·p̄·(1−p̄)·(zα+zβ)² / (p2−p1)²)` (with `p2 = p1·(1+mde)` and
`p̄ = (p1+p2)/2`), and that integer is positive.  The `jstat` inverse CDF is
abstract; the hypotheses record that it yields numbers `za`, `zb` at the two
probed points with `za + zb > 0`, which holds for the true `Φ⁻¹` since both
arguments exceed `0.8`. -/
theorem calculateSampleSize_closed_form (P : NormalPrims) (b m c p za zb : ℚ)
    (hb0 : 0 < b) (hb1 : b < 1) (hm0 : 0 < m) (hm1 : m < 1)
    (hc0 : 8/10 < c) (hc1 : c < 1) (hp0 : 8/10 < p) (hp1 : p < 1)
    (hlt1 : b * (1 + m) < 1)
    (hA : P.inv (.num (1 - (1 - c) / 2)) = .num za)
    (hB : P.inv (.num p) = .num zb)
    (hz : 0 < za + zb) :
    calculateSampleSize P b m c p =
      .ok (.num (⌈2 * ((b + b * (1 + m)) / 2) * (1 - (b + b * (1 + m)) / 2) *
        ((za + zb) * (za + zb)) /
        ((b * (1 + m) - b) * (b * (1 + m) - b))⌉ : ℚ)) ∧
    0 < (⌈2 * ((b + b * (1 + m)) / 2) * (1 - (b + b * (1 + m)) / 2) *
        ((za + zb) * (za + zb)) /
        ((b * (1 + m) - b) * (b * (1 + m) - b))⌉ : ℤ) := by
  have hbm : 0 < b * (1 + m) - b := by nlinarith
  have hd : b * (1 + m) - b ≠ 0 := ne_of_gt hbm
  constructor
  · exact calculateSampleSize_eq_of_valid P b m c p za zb
      ((validateInputs_none_iff b m c p).mpr
        ⟨hb0, hb1, hm0, hm1, hc0, hc1, hp0, hp1⟩) hA hB hd
  · refine Int.ceil_pos.mpr (div_pos ?_ (mul_pos hbm hbm))
    have h1 : 0 < (b + b * (1 + m)) / 2 := by nlinarith
    have h2 : 0 < 1 - (b + b * (1 + m)) / 2 := by nlinarith
    have h3 : 0 < (za + zb) * (za + zb) := mul_pos hz hz
    exact mul_pos (mul_pos (mul_pos (by norm_num : (0:ℚ) < 2) h1) h2) h3

/-- C1 (witness): the closed form evaluated with the identity primitives at
`baselineRate = 0.1`, `mde = 0.5`, `confidence = 0.9`, `power = 0.85`. -/
theorem calculateSampleSize_closed_form_witness :
    calculateSampleSize idPrims (1/10) (1/2) (9/10) (85/100) =
      .ok (.num (⌈(2:ℚ) * ((1/10 + 1/10 * (1 + 1/2)) / 2) * (1 - (1/10 + 1/10 * (1 + 1/2)) / 2) *
        (((1 - (1 - 9/10) / 2) + 85/100) * ((1 - (1 - 9/10) / 2) + 85/100)) /
        ((1/10 * (1 + 1/2) - 1/10) * (1/10 * (1 + 1/2) - 1/10))⌉ : ℚ)) ∧
    0 < (⌈2 * ((1/10 + 1/10 * (1 + 1/2) : ℚ) / 2) * (1 - (1/10 + 1/10 * (1 + 1/2)) / 2) *
        (((1 - (1 - 9/10) / 2) + 85/100) * ((1 - (1 - 9/10) / 2) + 85/100)) /
        ((1/10 * (1 + 1/2) - 1/10) * (1/10 * (1 + 1/2) - 1/10))⌉ : ℤ) :=
  calculateSampleSize_closed_form idPrims (1/10) (1/2) (9/10) (85/100)
    (1 - (1 - 9/10) / 2) (85/100)
    (by norm_num) (by norm_num) (by norm_num) (by norm_num) (by norm_num) (by norm_num)
    (by norm_num) (by norm_num) (by norm_num) rfl rfl (by norm_num)

/-- C6: `analyzeResults` performs no empty-input check: called with an empty
control sequence it does not raise any error (it is a total function into
`OutcomeRecord`) and instead returns a record whose `controlRate` and
`relativeImprovement` fields are the JavaScript `NaN` produced by `0/0` —
contradicting the claim that an InvalidInput error is raised. -/
theorem analyzeResults_empty_no_error (P : NormalPrims) (c : ℚ) :
    (analyzeResults P [] [1] c).controlRate = .nan ∧
    (analyzeResults P [] [1] c).relativeImprovement = .nan := by
  constructor <;> rfl

/-- C5: on two all-zero arms the pooled rate is `0`, the standard error is
`Math.sqrt 0 = 0`, and the z-score is the JavaScript `0/0 = NaN`; the `NaN`
propagates through the normal CDF (which maps `NaN` to `NaN`), so the
returned `pValue` is `NaN` — not the claimed `1` — while `significant` is
`false` only because every JavaScript comparison with `NaN` is false. -/
theorem analyzeResults_zero_pooled_pValue_nan (P : NormalPrims) (c : ℚ)
    (hs : P.sqrtF (.num 0) = .num 0) (hcdf : P.cdf .nan = .nan) :
    (analyzeResults P [0] [0] c).pValue = .nan ∧
    (analyzeResults P [0] [0] c).pValue ≠ .num 1 ∧
    (analyzeResults P [0] [0] c).significant = false := by
  have hrec : (analyzeResults P [0] [0] c).pValue = .nan := by
    unfold analyzeResults
    simp only [listSum, List.foldl, List.length]
    norm_num [jdiv, jsub, jmul, jadd, jabs]
    rw [hs]
    norm_num [jdiv, jsub, jmul, jadd, jabs]
    rw [hcdf]
  refine ⟨hrec, by rw [hrec]; simp, ?_⟩
  have : (analyzeResults P [0] [0] c).significant =
      jlt (analyzeResults P [0] [0] c).pValue (.num (1 - c)) := rfl
  rw [this, hrec]
  rfl

/-- C5 (witness): the degenerate-input theorem applied with the identity
primitives, which satisfy both hypotheses. -/
theorem analyzeResults_zero_pooled_pValue_nan_witness :
    (analyzeResults idPrims [0] [0] (95/100)).pValue = .nan ∧
    (analyzeResults idPrims [0] [0] (95/100)).pValue ≠ .num 1 ∧
    (analyzeResults idPrims [0] [0] (95/100)).significant = false :=
  analyzeResults_zero_pooled_pValue_nan idPrims (95/100) rfl rfl

/-- With a non-positive step the loop counter stays non-positive, so it never
exceeds a nonnegative `currentSize` and the loop never finishes, whatever the
fuel. -/
theorem seqLoop_nonpos_none (P : NormalPrims) (control variant : List ℚ)
    (k : ℤ) (c : ℚ) (currentSize : ℤ) (hk : k ≤ 0) (hcs : 0 ≤ currentSize) :
    ∀ fuel : ℕ, ∀ size : ℤ, size ≤ 0 →
      seqLoop P control variant k c currentSize fuel size = none := by
  intro fuel
  induction fuel with
  | zero =>
    intro size hsz
    simp [seqLoop, le_trans hsz hcs]
  | succ n ih =>
    intro size hsz
    have hcond : size ≤ currentSize := le_trans hsz hcs
    simp only [seqLoop, if_pos hcond]
    rw [ih (size + k) (by omega)]

/-- C7: with `checkpointSize ≤ 0` the `sequentialAnalysis` loop never
terminates — for every fuel bound the loop is still running (first conjunct),
and the packaged function returns the divergence marker `none` (second
conjunct) — contradicting the claim that the call fails fast with an
error. -/
theorem sequentialAnalysis_nonpos_checkpoint_diverges (P : NormalPrims)
    (control variant : List ℚ) (k : ℤ) (c : ℚ) (hk : k ≤ 0) :
    (∀ fuel : ℕ,
      seqLoop P control variant k c ((min control.length variant.length : ℕ) : ℤ)
        fuel k = none) ∧
    sequentialAnalysis P control variant k c = none := by
  have h := seqLoop_nonpos_none P control variant k c
    ((min control.length variant.length : ℕ) : ℤ) hk (by positivity)
  exact ⟨fun fuel => h fuel k hk, h _ k hk⟩

/-- C7 (witness): the divergence theorem applied at `checkpointSize = 0`. -/
theorem sequentialAnalysis_nonpos_checkpoint_diverges_witness :
    sequentialAnalysis idPrims [1] [1] 0 (9/10) = none :=
  (sequentialAnalysis_nonpos_checkpoint_diverges idPrims [1] [1] 0 (9/10) le_rfl).2

/-- Number of iterations the `sequentialAnalysis` loop still performs when
its counter stands at `size` (positive step `k`, bound `M`). -/
def iterCount (M : ℕ) (k : ℤ) (size : ℤ) : ℕ :=
  if size ≤ (M : ℤ) then (M - size.toNat) / k.toNat + 1 else 0

/-- The checkpoint pushed by the loop iteration with counter value `s`. -/
def chkAt (P : NormalPrims) (control variant : List ℚ) (c : ℚ) (s : ℤ) : Checkpoint where
  sampleSize := s
  pValue := (analyzeResults P (jsSlice control s) (jsSlice variant s) c).pValue
  relativeImprovement :=
    (analyzeResults P (jsSlice control s) (jsSlice variant s) c).relativeImprovement

theorem jsSlice_natCast (l : List ℚ) (n : ℕ) : jsSlice l ((n : ℕ) : ℤ) = l.take n := by
  unfold jsSlice
  rw [if_neg (not_lt.mpr (Int.natCast_nonneg n)), Int.toNat_natCast]

theorem iterCount_step (M : ℕ) (k size : ℤ) (hk : 0 < k) (h0 : 0 < size)
    (hsz : size ≤ (M : ℤ)) :
    iterCount M k size = iterCount M k (size + k) + 1 := by
  unfold iterCount
  rw [if_pos hsz]
  by_cases h2 : size + k ≤ (M : ℤ)
  · rw [if_pos h2]
    have hkn : 0 < k.toNat := by omega
    have hle : k.toNat ≤ M - size.toNat := by omega
    have e1 : M - (size + k).toNat = M - size.toNat - k.toNat := by omega
    rw [e1, ← Nat.div_eq_sub_div hkn hle]
  · rw [if_neg h2, Nat.div_eq_of_lt (by omega : M - size.toNat < k.toNat)]

theorem iterCount_init (N : ℕ) (k : ℤ) (hk : 0 < k) :
    iterCount N k k = N / k.toNat := by
  unfold iterCount
  by_cases h : k ≤ (N : ℤ)
  · rw [if_pos h]
    have hkn : 0 < k.toNat := by omega
    have hle : k.toNat ≤ N := by omega
    rw [Nat.div_eq_sub_div hkn hle]
  · rw [if_neg h, Nat.div_eq_of_lt (by omega : N < k.toNat)]

/-- Characterization of the loop for a positive step: with enough fuel it
terminates and pushes exactly the checkpoints at counter values
`size, size+k, size+2k, …` while the counter stays within the bound. -/
theorem seqLoop_pos_eq (P : NormalPrims) (control variant : List ℚ)
    (k : ℤ) (c : ℚ) (M : ℕ) (hk : 0 < k) :
    ∀ fuel : ℕ, ∀ size : ℤ, 0 < size → iterCount M k size ≤ fuel →
      seqLoop P control variant k c (M : ℤ) fuel size =
        some ((List.range (iterCount M k size)).map
          (fun (i : ℕ) => chkAt P control variant c (size + (i : ℤ) * k))) := by
  intro fuel
  induction fuel with
  | zero =>
    intro size h0 hf
    have hcnt : iterCount M k size = 0 := Nat.le_zero.mp hf
    have hsz : ¬ size ≤ (M : ℤ) := by
      intro hle
      simp [iterCount, hle] at hcnt
    simp [seqLoop, hsz, hcnt]
  | succ n ih =>
    intro size h0 hf
    by_cases hsz : size ≤ (M : ℤ)
    · have hstep := iterCount_step M k size hk h0 hsz
      have hrec := ih (size + k) (by omega) (by omega)
      simp only [seqLoop, if_pos hsz, hrec]
      rw [hstep, List.range_succ_eq_map]
      simp only [List.map_cons, List.map_map]
      refine congrArg some (congrArg₂ List.cons ?_ (List.map_congr_left ?_))
      · simp [chkAt]
      · intro i hi
        simp only [Function.comp]
        have h3 : size + k + (i : ℤ) * k = size + ((Nat.succ i : ℕ) : ℤ) * k := by
          push_cast
          ring
        rw [h3]
    · have hcnt : iterCount M k size = 0 := by simp [iterCount, hsz]
      simp [seqLoop, hsz, hcnt]

/-- The checkpoint sequence exactly as the spec (§4.4) describes it: one
entry per full multiple of `checkpointSize` up to `N`, analyzed on the
length-`sampleSize` prefixes of the two arms. -/
def specCheckpoints (P : NormalPrims) (control variant : List ℚ) (c : ℚ)
    (k : ℤ) (N : ℕ) : List Checkpoint :=
  (List.range (N / k.toNat)).map (fun (i : ℕ) =>
    { sampleSize := ((i : ℤ) + 1) * k
      pValue := (analyzeResults P (control.take ((i + 1) * k.toNat))
        (variant.take ((i + 1) * k.toNat)) c).pValue
      relativeImprovement := (analyzeResults P (control.take ((i + 1) * k.toNat))
        (variant.take ((i + 1) * k.toNat)) c).relativeImprovement })

/-- C3: on two sequences of equal length `N` with a positive checkpoint size
`k`, `sequentialAnalysis` returns exactly `⌊N/k⌋` checkpoints, whose
`sampleSize` values are `k, 2k, 3k, …` (strictly increasing) and whose
`pValue` and `relativeImprovement` are those of `analyzeResults` on the
length-`sampleSize` prefixes of the two sequences. -/
theorem sequentialAnalysis_checkpoints (P : NormalPrims) (control variant : List ℚ)
    (N : ℕ) (k : ℤ) (c : ℚ)
    (hcl : control.length = N) (hvl : variant.length = N) (hk : 0 < k) :
    sequentialAnalysis P control variant k c =
      some (specCheckpoints P control variant c k N) ∧
    (specCheckpoints P control variant c k N).length = N / k.toNat ∧
    (∀ i j (hi : i < (specCheckpoints P control variant c k N).length)
        (hj : j < (specCheckpoints P control variant c k N).length), i < j →
      ((specCheckpoints P control variant c k N).get ⟨i, hi⟩).sampleSize <
        ((specCheckpoints P control variant c k N).get ⟨j, hj⟩).sampleSize) := by
  have hkk : ((k.toNat : ℤ)) = k := Int.toNat_of_nonneg hk.le
  refine ⟨?_, by simp [specCheckpoints], ?_⟩
  · unfold sequentialAnalysis
    rw [hcl, hvl, min_self]
    have hfuel : iterCount N k k ≤ ((N : ℤ)).toNat + 1 := by
      unfold iterCount
      by_cases h : k ≤ (N : ℤ)
      · rw [if_pos h]
        have := Nat.div_le_self (N - k.toNat) k.toNat
        omega
      · rw [if_neg h]
        omega
    rw [seqLoop_pos_eq P control variant k c N hk _ k hk hfuel, iterCount_init N k hk]
    unfold specCheckpoints
    refine congrArg some (List.map_congr_left ?_)
    intro i hi
    have hs : k + (i : ℤ) * k = ((((i + 1) * k.toNat : ℕ) : ℤ)) := by
      push_cast [hkk]
      ring
    unfold chkAt
    rw [hs]
    simp only [jsSlice_natCast]
    congr 1
    push_cast [hkk]
    ring
  · intro i j hi hj hij
    have hgi : ((specCheckpoints P control variant c k N).get ⟨i, hi⟩).sampleSize =
        ((i : ℤ) + 1) * k := by
      simp [specCheckpoints]
    have hgj : ((specCheckpoints P control variant c k N).get ⟨j, hj⟩).sampleSize =
        ((j : ℤ) + 1) * k := by
      simp [specCheckpoints]
    rw [hgi, hgj]
    have h1 : ((i : ℤ)) + 1 < ((j : ℤ)) + 1 := by omega
    exact mul_lt_mul_of_pos_right h1 hk

/-- C3 (witness): the checkpoint theorem applied at two concrete length-3
sequences with checkpoint size 2 (one full checkpoint, the remainder
dropped). -/
theorem sequentialAnalysis_checkpoints_witness :
    sequentialAnalysis idPrims [1, 0, 1] [0, 1, 1] 2 (9/10) =
      some (specCheckpoints idPrims [1, 0, 1] [0, 1, 1] (9/10) 2 3) :=
  (sequentialAnalysis_checkpoints idPrims [1, 0, 1] [0, 1, 1] 3 2 (9/10)
    rfl rfl (by norm_num)).1

/-- Swapping the inner subtraction's operands only negates the quotient,
which `Math.abs` erases — for every JavaScript value, `NaN` included. -/
theorem jabs_jdiv_jsub_swap (a b d : JsVal) :
    jabs (jdiv (jsub a b) d) = jabs (jdiv (jsub b a) d) := by
  rw [jsub_eq_jneg_swap a b, jdiv_jneg_left, jabs_jneg]

/-- C10: swapping the control and variant arguments of `analyzeResults`
leaves `pValue` and `significant` unchanged: the pooled proportion and the
standard error are symmetric in the two arms and the z-score only changes
sign, entering the p-value through its absolute value. -/
theorem analyzeResults_swap_symmetric (P : NormalPrims) (control variant : List ℚ)
    (c : ℚ) :
    (analyzeResults P variant control c).pValue =
      (analyzeResults P control variant c).pValue ∧
    (analyzeResults P variant control c).significant =
      (analyzeResults P control variant c).significant := by
  have hp : (analyzeResults P variant control c).pValue =
      (analyzeResults P control variant c).pValue := by
    simp only [analyzeResults]
    rw [jabs_jdiv_jsub_swap]
    rw [add_comm (listSum variant) (listSum control),
      add_comm ((variant.length : ℚ)) ((control.length : ℚ)),
      jadd_comm (jdiv (.num 1) (.num (variant.length : ℚ)))
        (jdiv (.num 1) (.num (control.length : ℚ)))]
  refine ⟨hp, ?_⟩
  show jlt (analyzeResults P variant control c).pValue (.num (1 - c)) =
    jlt (analyzeResults P control variant c).pValue (.num (1 - c))
  rw [hp]

/-- C2: on non-empty {0,1}-sequences `analyzeResults` computes the
documented two-proportion z-test: the two rates are the sample means, the
p-value is `2·(1 − Φ(|z|))` for the pooled z-score, `significant` is exactly
the comparison `pValue < 1 − confidence`, and the conclusion is chosen by
significance and the direction of the rate difference.  `Math.sqrt` and the
normal CDF enter as the abstract primitives of `P`, applied to exactly the
documented arguments. -/
theorem analyzeResults_formula (P : NormalPrims) (control variant : List ℚ) (c : ℚ)
    (hc : control ≠ []) (hv : variant ≠ [])
    (hbc : ∀ x ∈ control, x = 0 ∨ x = 1) (hbv : ∀ x ∈ variant, x = 0 ∨ x = 1) :
    (analyzeResults P control variant c).controlRate = .num (obsRate control) ∧
    (analyzeResults P control variant c).variantRate = .num (obsRate variant) ∧
    (analyzeResults P control variant c).pValue =
      jmul (.num 2) (jsub (.num 1) (P.cdf (jabs (jdiv
        (.num (obsRate variant - obsRate control))
        (P.sqrtF (.num (pooledRate control variant * (1 - pooledRate control variant) *
          (1 / (control.length : ℚ) + 1 / (variant.length : ℚ))))))))) ∧
    (analyzeResults P control variant c).significant =
      jlt (analyzeResults P control variant c).pValue (.num (1 - c)) ∧
    (analyzeResults P control variant c).conclusion =
      (if (analyzeResults P control variant c).significant then
        (if obsRate control < obsRate variant then
          "The variant outperformed the control group significantly."
        else "The control group outperformed the variant significantly.")
      else "The test results are inconclusive.") := by
  have h1 : ((control.length : ℚ)) ≠ 0 := Nat.cast_ne_zero.mpr (by simpa using hc)
  have h2 : ((variant.length : ℚ)) ≠ 0 := Nat.cast_ne_zero.mpr (by simpa using hv)
  have h12 : ((control.length : ℚ)) + (variant.length : ℚ) ≠ 0 := by
    have hl1 : 0 < control.length := List.length_pos.mpr hc
    have : (0:ℚ) < (control.length : ℚ) + (variant.length : ℚ) := by
      have : (0:ℚ) < (control.length : ℚ) := by exact_mod_cast hl1
      have h0 : (0:ℚ) ≤ (variant.length : ℚ) := by positivity
      linarith
    exact ne_of_gt this
  refine ⟨?_, ?_, ?_, rfl, ?_⟩
  · simp only [analyzeResults, jdiv_num _ _ h1, obsRate]
  · simp only [analyzeResults, jdiv_num _ _ h2, obsRate]
  · simp only [analyzeResults, obsRate, pooledRate,
      jdiv_num _ _ h1, jdiv_num _ _ h2, jdiv_num _ _ h12, jsub_num, jmul_num, jadd_num]
  · simp only [analyzeResults, obsRate,
      jdiv_num _ _ h1, jdiv_num _ _ h2, jlt_num, decide_eq_true_eq]

/-- C2 (witness): the formula theorem applied to two concrete non-empty
binary sequences with the identity primitives. -/
theorem analyzeResults_formula_witness :
    (analyzeResults idPrims [1, 0] [1, 1] (9/10)).controlRate = .num (obsRate [1, 0]) ∧
    (analyzeResults idPrims [1, 0] [1, 1] (9/10)).variantRate = .num (obsRate [1, 1]) ∧
    (analyzeResults idPrims [1, 0] [1, 1] (9/10)).pValue =
      jmul (.num 2) (jsub (.num 1) (idPrims.cdf (jabs (jdiv
        (.num (obsRate [1, 1] - obsRate [1, 0]))
        (idPrims.sqrtF (.num (pooledRate [1, 0] [1, 1] * (1 - pooledRate [1, 0] [1, 1]) *
          (1 / ((List.length [1, 0] : ℕ) : ℚ) + 1 / ((List.length [1, 1] : ℕ) : ℚ))))))))) ∧
    (analyzeResults idPrims [1, 0] [1, 1] (9/10)).significant =
      jlt (analyzeResults idPrims [1, 0] [1, 1] (9/10)).pValue (.num (1 - 9/10)) ∧
    (analyzeResults idPrims [1, 0] [1, 1] (9/10)).conclusion =
      (if (analyzeResults idPrims [1, 0] [1, 1] (9/10)).significant then
        (if obsRate [1, 0] < obsRate [1, 1] then
          "The variant outperformed the control group significantly."
        else "The control group outperformed the variant significantly.")
      else "The test results are inconclusive.") :=
  analyzeResults_formula idPrims [1, 0] [1, 1] (9/10)
    (by simp) (by simp)
    (by rintro x hx; fin_cases hx <;> norm_num)
    (by rintro x hx; fin_cases hx <;> norm_num)

/-- C9: the per-arm confidence intervals of `analyzeResults` are the unpooled
Wald intervals `rate ± z·sqrt(rate·(1−rate)/n)` with
`z = Φ⁻¹(1−(1−confidence)/2)`, and each interval brackets its own point
estimate.  The hypotheses record that the abstract inverse CDF yields a
nonnegative `za` at the probed level (true of `Φ⁻¹` since the argument
exceeds one half) and that the abstract square root yields nonnegative
numbers `sc`, `sv` at the two variance arguments (true of `Math.sqrt`). -/
theorem analyzeResults_ci_wald (P : NormalPrims) (control variant : List ℚ)
    (c za sc sv : ℚ)
    (hc : control ≠ []) (hv : variant ≠ [])
    (hbc : ∀ x ∈ control, x = 0 ∨ x = 1) (hbv : ∀ x ∈ variant, x = 0 ∨ x = 1)
    (hinv : P.inv (.num (1 - (1 - c) / 2)) = .num za) (hza : 0 ≤ za)
    (hsc : P.sqrtF (.num (obsRate control * (1 - obsRate control) /
      (control.length : ℚ))) = .num sc) (hsc0 : 0 ≤ sc)
    (hsv : P.sqrtF (.num (obsRate variant * (1 - obsRate variant) /
      (variant.length : ℚ))) = .num sv) (hsv0 : 0 ≤ sv) :
    (analyzeResults P control variant c).ciControl =
      (.num (obsRate control - za * sc), .num (obsRate control + za * sc)) ∧
    obsRate control - za * sc ≤ obsRate control ∧
    obsRate control ≤ obsRate control + za * sc ∧
    (analyzeResults P control variant c).ciVariant =
      (.num (obsRate variant - za * sv), .num (obsRate variant + za * sv)) ∧
    obsRate variant - za * sv ≤ obsRate variant ∧
    obsRate variant ≤ obsRate variant + za * sv := by
  have h1 : ((control.length : ℚ)) ≠ 0 := Nat.cast_ne_zero.mpr (by simpa using hc)
  have h2 : ((variant.length : ℚ)) ≠ 0 := Nat.cast_ne_zero.mpr (by simpa using hv)
  simp only [obsRate] at hsc hsv
  refine ⟨?_, sub_le_self _ (mul_nonneg hza hsc0),
    le_add_of_nonneg_right (mul_nonneg hza hsc0), ?_,
    sub_le_self _ (mul_nonneg hza hsv0),
    le_add_of_nonneg_right (mul_nonneg hza hsv0)⟩
  · simp only [analyzeResults, obsRate,
      jdiv_num _ _ h1, jdiv_num _ _ h2, jsub_num, jmul_num]
    rw [hinv, hsc]
    simp only [jmul_num, jsub_num, jadd_num]
  · simp only [analyzeResults, obsRate,
      jdiv_num _ _ h1, jdiv_num _ _ h2, jsub_num, jmul_num]
    rw [hinv, hsv]
    simp only [jmul_num, jsub_num, jadd_num]

/-- C9 (witness): the Wald-interval theorem applied at concrete sequences
with the identity primitives. -/
theorem analyzeResults_ci_wald_witness :
    (analyzeResults idPrims [1, 0] [1] (9/10)).ciControl =
      (.num (obsRate [1, 0] - (1 - (1 - 9/10) / 2) *
          (obsRate [1, 0] * (1 - obsRate [1, 0]) / ((List.length [(1:ℚ), 0] : ℕ) : ℚ))),
       .num (obsRate [1, 0] + (1 - (1 - 9/10) / 2) *
          (obsRate [1, 0] * (1 - obsRate [1, 0]) / ((List.length [(1:ℚ), 0] : ℕ) : ℚ)))) ∧
    obsRate [1, 0] - (1 - (1 - 9/10) / 2) *
        (obsRate [1, 0] * (1 - obsRate [1, 0]) / ((List.length [(1:ℚ), 0] : ℕ) : ℚ)) ≤
      obsRate [1, 0] ∧
    obsRate [1, 0] ≤ obsRate [1, 0] + (1 - (1 - 9/10) / 2) *
        (obsRate [1, 0] * (1 - obsRate [1, 0]) / ((List.length [(1:ℚ), 0] : ℕ) : ℚ)) ∧
    (analyzeResults idPrims [1, 0] [1] (9/10)).ciVariant =
      (.num (obsRate [1] - (1 - (1 - 9/10) / 2) *
          (obsRate [1] * (1 - obsRate [1]) / ((List.length [(1:ℚ)] : ℕ) : ℚ))),
       .num (obsRate [1] + (1 - (1 - 9/10) / 2) *
          (obsRate [1] * (1 - obsRate [1]) / ((List.length [(1:ℚ)] : ℕ) : ℚ)))) ∧
    obsRate [1] - (1 - (1 - 9/10) / 2) *
        (obsRate [1] * (1 - obsRate [1]) / ((List.length [(1:ℚ)] : ℕ) : ℚ)) ≤ obsRate [1] ∧
    obsRate [1] ≤ obsRate [1] + (1 - (1 - 9/10) / 2) *
        (obsRate [1] * (1 - obsRate [1]) / ((List.length [(1:ℚ)] : ℕ) : ℚ)) :=
  analyzeResults_ci_wald idPrims [1, 0] [1] (9/10)
    (1 - (1 - 9/10) / 2)
    (obsRate [1, 0] * (1 - obsRate [1, 0]) / ((List.length [(1:ℚ), 0] : ℕ) : ℚ))
    (obsRate [1] * (1 - obsRate [1]) / ((List.length [(1:ℚ)] : ℕ) : ℚ))
    (by simp) (by simp)
    (by rintro x hx; fin_cases hx <;> norm_num)
    (by rintro x hx; fin_cases hx <;> norm_num)
    rfl (by norm_num)
    rfl (by norm_num [obsRate, listSum])
    rfl (by norm_num [obsRate, listSum])

end ABTest
